import Mathlib

/-!
Shallow embedding of the greedy-decode scripts of MANGABubbleOCR
(`scripts/tokenid_debug3.py`, `scripts/tokenid_debug4.py`), and proofs of
the specified properties of `decode_tokens`, the greedy decode loop, the
arg-max selection step, and the command-line entry points.

Conventions of the embedding:
  * Python `int` token IDs are `Int`.
  * A logits row (`float32` vector) is a `List ℚ` (a `List ℝ` where the
    softmax normalisation of `tokenid_debug4.py` is involved); the real /
    rational numbers stand for the machine floats.
  * The model inference call is opaque and unowned by the repository: the
    loop is parametrised by a function `chooseNext : σ → List Int → Int × σ`
    standing for one `predict` + arg-max selection, with `σ` the auxiliary
    recurrent state threaded by `tokenid_debug3.py` (`σ = Unit` for
    `tokenid_debug4.py`, which threads nothing).
  * Fallible effects (missing files raising `FileNotFoundError`) are
    modelled as explicit outcome constructors.
-/

/-- Keys of the `special_ids` dict `{0: "[PAD]", 1: "[UNK]", 2: "[CLS]", 3: "[SEP]"}`
shared by `decode_tokens` in `tokenid_debug3.py` and `tokenid_debug4.py`;
only the keys are consulted (`if t in special_ids: continue`). -/
def special_ids : List Int := [0, 1, 2, 3]

/-- Embedding of `"".join(decoded)`: Python string join with the empty
separator is plain concatenation in order. -/
def joinAll : List String → String
  | [] => ""
  | s :: rest => s ++ joinAll rest

/-- One iteration of the `for t in tokens` body of `decode_tokens`:
`none` for the `continue` on a special ID, otherwise the string appended
to `decoded` (the vocabulary entry when `0 <= t < len(vocab)`, the
placeholder `f"<UNK{t}>"` otherwise). -/
def decodePiece (vocab : List String) (t : Int) : Option String :=
  if t ∈ special_ids then none
  else if 0 ≤ t ∧ t < (vocab.length : Int) then some (vocab.getD t.toNat "")
  else some ("<UNK" ++ toString t ++ ">")

/-- Embedding of `decode_tokens(tokens, vocab)` (identical in
`tokenid_debug3.py` lines 15–25 and `tokenid_debug4.py` lines 39–49). -/
def decode_tokens (tokens : List Int) (vocab : List String) : String :=
  joinAll (tokens.filterMap (decodePiece vocab))

/-- `BOS_ID = 2` of `tokenid_debug4.py` (`tokens = [2]  # [CLS]` in
`tokenid_debug3.py`). -/
def BOS_ID : Int := 2

/-- `EOS_ID = 3` of `tokenid_debug4.py` (`if next_id == 3:  # [SEP]` in
`tokenid_debug3.py`). -/
def EOS_ID : Int := 3

/-- `MAX_LEN = 32` of `tokenid_debug4.py` (`max_len = 32` in
`tokenid_debug3.py`). -/
def MAX_LEN : Nat := 32

/-- One iteration body of the decode loop: `tokens.append(chosen)`.
`chooseNext` stands for the opaque `mlmodel.predict` call followed by the
arg-max selection of the next token ID; `σ` is the recurrent state
threaded by `tokenid_debug3.py`. -/
def decodeStep {σ : Type} (chooseNext : σ → List Int → Int × σ) (s : σ)
    (tokens : List Int) : List Int :=
  tokens ++ [(chooseNext s tokens).1]

/-- Embedding of `for step in range(max_len): ... tokens.append(chosen);
if chosen == EOS_ID: break` (`tokenid_debug4.py` lines 75–98,
`tokenid_debug3.py` lines 57–73): the first argument after `chooseNext`
is the number of remaining iterations. -/
def decodeLoop {σ : Type} (chooseNext : σ → List Int → Int × σ) :
    Nat → σ → List Int → List Int
  | 0, _, tokens => tokens
  | n + 1, s, tokens =>
    if (chooseNext s tokens).1 = EOS_ID then decodeStep chooseNext s tokens
    else decodeLoop chooseNext n (chooseNext s tokens).2 (decodeStep chooseNext s tokens)

/-- Embedding of the decode part of `run` in `tokenid_debug4.py` (and the
loop of `main` in `tokenid_debug3.py`): start from `tokens = [BOS_ID]`
and iterate at most `maxLen` times. -/
def run {σ : Type} (chooseNext : σ → List Int → Int × σ) (maxLen : Nat)
    (s0 : σ) : List Int :=
  decodeLoop chooseNext maxLen s0 [BOS_ID]

/-- Tail-recursive first-maximum reduction: the running best value `bv`
is replaced exactly when the new entry is strictly greater, so the index
of the first occurrence of the maximum is kept.  `best` is the index of
the current best entry and `i` the index of the head of the remaining
list. -/
def np_argmaxFrom {α : Type} [LinearOrder α] : List α → α → Nat → Nat → Nat
  | [], _, best, _ => best
  | x :: xs, bv, best, i =>
    if bv < x then np_argmaxFrom xs x i (i + 1)
    else np_argmaxFrom xs bv best (i + 1)

/-- Embedding of `np.argmax` on a vector: index of the first occurrence
of the maximum entry (`int(np.argmax(logits[0, -1]))` in
`tokenid_debug3.py` line 69, `int(probs.argmax())` in
`tokenid_debug4.py` line 94). -/
def np_argmax {α : Type} [LinearOrder α] : List α → Nat
  | [] => 0
  | x :: xs => np_argmaxFrom xs x 0 1

/-- Selection step of `tokenid_debug3.py` line 69: arg-max of the last
logits row `logits[0, -1]` (the logits tensor of batch 0 is the list of
its rows). -/
def selectNext (logits : List (List ℚ)) : Nat :=
  np_argmax (logits.getLastD [])

/-- Embedding of `last_logits.max()`. -/
def listMax : List ℝ → ℝ
  | [] => 0
  | x :: xs => xs.foldl max x

/-- Embedding of the normalisation of `tokenid_debug4.py` lines 91–92:
`probs = np.exp(last_logits - last_logits.max()); probs = probs / probs.sum()`. -/
noncomputable def softmax (xs : List ℝ) : List ℝ :=
  let exps := xs.map (fun x => Real.exp (x - listMax xs))
  exps.map (fun e => e / exps.sum)

/-- Observable outcome of one invocation of a decode script: an explicit
`sys.exit(code)` after a printed message, a `FileNotFoundError`-style
uncaught exception (the interpreter prints the traceback and exits with
the given nonzero code), or a completed decode run. -/
inductive ScriptOutcome where
  | usageExit (code : Nat)
  | exitMissing (msg : String) (code : Nat)
  | uncaughtError (msg : String) (code : Nat)
  | success (tokens : List Int) (text : String)

/-- Process exit status of an outcome (0 on a completed run). -/
def ScriptOutcome.exitCode : ScriptOutcome → Nat
  | .usageExit c => c
  | .exitMissing _ c => c
  | .uncaughtError _ c => c
  | .success _ _ => 0

/-- Whether the decode loop was reached and executed. -/
def ScriptOutcome.ranDecodeLoop : ScriptOutcome → Bool
  | .success _ _ => true
  | _ => false

/-- Model path resolved by `tokenid_debug4.py` line 111:
`sys.argv[2] if len(sys.argv) > 2 else "manga_ocr.mlpackage"`. -/
def debug4_model_path (argv : List String) : String :=
  if 2 < argv.length then argv.getD 2 "" else "manga_ocr.mlpackage"

/-- Vocabulary path resolved by `tokenid_debug4.py` line 112:
`sys.argv[3] if len(sys.argv) > 3 else "vocab.txt"`. -/
def debug4_vocab_path (argv : List String) : String :=
  if 3 < argv.length then argv.getD 3 "" else "vocab.txt"

/-- Vocabulary path resolved by `tokenid_debug3.py` line 47:
`sys.argv[3] if len(sys.argv) > 3 else "vocab.txt"`. -/
def debug3_vocab_path (argv : List String) : String :=
  if 3 < argv.length then argv.getD 3 "" else "vocab.txt"

/-- Embedding of the `__main__` block of `tokenid_debug4.py` (lines
105–124) together with the file accesses of `run`: usage exit when fewer
than 2 argv entries, explicit existence checks with `sys.exit(1)` for the
model and vocabulary paths, then `Image.open` inside `run` raises when
the image file is missing — all before the decode loop.  `fileExists`
stands for `os.path.exists` / the file system, `vocabContent` for the
lines of the vocabulary file, `chooseNext`/`s0` for the opaque model. -/
def tokenid_debug4_main {σ : Type} (fileExists : String → Bool)
    (vocabContent : List String) (chooseNext : σ → List Int → Int × σ)
    (s0 : σ) (argv : List String) : ScriptOutcome :=
  if argv.length < 2 then .usageExit 1
  else if fileExists (debug4_model_path argv) = false then
    .exitMissing ("Model file not found: " ++ debug4_model_path argv) 1
  else if fileExists (debug4_vocab_path argv) = false then
    .exitMissing ("Vocab file not found: " ++ debug4_vocab_path argv) 1
  else if fileExists (argv.getD 1 "") = false then
    .uncaughtError ("FileNotFoundError: " ++ argv.getD 1 "") 1
  else
    .success (run chooseNext MAX_LEN s0)
      (decode_tokens (run chooseNext MAX_LEN s0) vocabContent)

/-- Embedding of `main` of `tokenid_debug3.py` (lines 40–77): usage exit
when fewer than 3 argv entries; no explicit existence checks, but
`load_vocab` (line 49), `ct.models.MLModel` (line 50) and `Image.open`
(line 52, inside `crop_and_preprocess`) each raise an uncaught exception
when their file is missing, in that order, all before the decode loop. -/
def tokenid_debug3_main {σ : Type} (fileExists : String → Bool)
    (vocabContent : List String) (chooseNext : σ → List Int → Int × σ)
    (s0 : σ) (argv : List String) : ScriptOutcome :=
  if argv.length < 3 then .usageExit 1
  else if fileExists (debug3_vocab_path argv) = false then
    .uncaughtError ("FileNotFoundError: " ++ debug3_vocab_path argv) 1
  else if fileExists (argv.getD 2 "") = false then
    .uncaughtError ("Model load failed: " ++ argv.getD 2 "") 1
  else if fileExists (argv.getD 1 "") = false then
    .uncaughtError ("FileNotFoundError: " ++ argv.getD 1 "") 1
  else
    .success (run chooseNext MAX_LEN s0)
      (decode_tokens (run chooseNext MAX_LEN s0) vocabContent)

/-- The three file paths an invocation of `tokenid_debug4.py` requires,
as resolved from `argv` (image argument, then the optional model and
vocabulary arguments with their defaults). -/
def debug4_required_paths (argv : List String) : List String :=
  [argv.getD 1 "", debug4_model_path argv, debug4_vocab_path argv]

/-- The three file paths an invocation of `tokenid_debug3.py` requires,
as resolved from `argv` (image and model arguments, then the optional
vocabulary argument with its default). -/
def debug3_required_paths (argv : List String) : List String :=
  [argv.getD 1 "", argv.getD 2 "", debug3_vocab_path argv]

/-! ## Lemmas about the decode loop -/

theorem decodeStep_length {σ : Type} (c : σ → List Int → Int × σ) (s : σ)
    (tokens : List Int) : (decodeStep c s tokens).length = tokens.length + 1 := by
  simp [decodeStep]

theorem decodeStep_extends {σ : Type} (c : σ → List Int → Int × σ) (s : σ)
    (tokens : List Int) : tokens <+: decodeStep c s tokens :=
  List.prefix_append tokens _

theorem decodeLoop_extends {σ : Type} (c : σ → List Int → Int × σ) :
    ∀ (n : Nat) (s : σ) (tokens : List Int), tokens <+: decodeLoop c n s tokens := by
  intro n
  induction n with
  | zero => intro s tokens; exact List.prefix_rfl
  | succ n ih =>
    intro s tokens
    simp only [decodeLoop]
    split
    · exact decodeStep_extends c s tokens
    · exact (decodeStep_extends c s tokens).trans (ih _ _)

theorem decodeLoop_length_le {σ : Type} (c : σ → List Int → Int × σ) :
    ∀ (n : Nat) (s : σ) (tokens : List Int),
      (decodeLoop c n s tokens).length ≤ tokens.length + n := by
  intro n
  induction n with
  | zero => intro s tokens; simp [decodeLoop]
  | succ n ih =>
    intro s tokens
    simp only [decodeLoop]
    split
    · simp [decodeStep]
    · refine le_trans (ih _ _) ?_
      simp [decodeStep]
      omega

theorem decodeLoop_length_no_eos {σ : Type} (c : σ → List Int → Int × σ)
    (h : ∀ s tokens, (c s tokens).1 ≠ EOS_ID) :
    ∀ (n : Nat) (s : σ) (tokens : List Int),
      (decodeLoop c n s tokens).length = tokens.length + n := by
  intro n
  induction n with
  | zero => intro s tokens; simp [decodeLoop]
  | succ n ih =>
    intro s tokens
    simp only [decodeLoop]
    rw [if_neg (h s tokens)]
    rw [ih]
    simp [decodeStep]
    omega

theorem decodeLoop_eos_last {σ : Type} (c : σ → List Int → Int × σ) :
    ∀ (n : Nat) (s : σ) (tokens : List Int),
      EOS_ID ∈ (decodeLoop c n s tokens).drop tokens.length →
      (decodeLoop c n s tokens).getLast? = some EOS_ID := by
  intro n
  induction n with
  | zero =>
    intro s tokens h
    simp only [decodeLoop] at h
    rw [List.drop_length] at h
    simp at h
  | succ n ih =>
    intro s tokens h
    simp only [decodeLoop] at h ⊢
    by_cases hc : (c s tokens).1 = EOS_ID
    · rw [if_pos hc]
      simp [decodeStep, hc]
    · rw [if_neg hc] at h ⊢
      obtain ⟨rest, hrest⟩ :=
        decodeLoop_extends c n (c s tokens).2 (decodeStep c s tokens)
      have hdrop :
          (decodeLoop c n (c s tokens).2 (decodeStep c s tokens)).drop tokens.length
            = (c s tokens).1 :: rest := by
        rw [← hrest]
        simp only [decodeStep]
        rw [List.append_assoc, List.drop_left]
        rfl
      rw [hdrop] at h
      rcases List.mem_cons.mp h with h1 | h1
      · exact absurd h1.symm hc
      · apply ih
        rw [← hrest, List.drop_left]
        exact h1

/-- C1: in every run of the greedy decode loop the token sequence starts
as the single begin-marker `[BOS_ID]` (ID 2), each loop iteration appends
exactly one token and never removes any (the old sequence is a prefix of
the new one), the final length never exceeds the configured maximum
number of steps plus one, and whenever the end-marker (ID 3) was selected
by some step, the final sequence ends with the end-marker. -/
theorem C1_decode_loop_invariants {σ : Type} (chooseNext : σ → List Int → Int × σ)
    (N : Nat) (s0 s : σ) (tokens : List Int) :
    [BOS_ID] <+: run chooseNext N s0
    ∧ (decodeStep chooseNext s tokens).length = tokens.length + 1
    ∧ tokens <+: decodeStep chooseNext s tokens
    ∧ (run chooseNext N s0).length ≤ N + 1
    ∧ (EOS_ID ∈ (run chooseNext N s0).drop 1 →
        (run chooseNext N s0).getLast? = some EOS_ID) := by
  refine ⟨?_, decodeStep_length chooseNext s tokens,
    decodeStep_extends chooseNext s tokens, ?_, ?_⟩
  · exact decodeLoop_extends chooseNext N s0 [BOS_ID]
  · have := decodeLoop_length_le chooseNext N s0 [BOS_ID]
    simpa [run, Nat.add_comm] using this
  · intro h
    exact decodeLoop_eos_last chooseNext N s0 [BOS_ID] h

/-- Witness for C1 at a concrete chooser that immediately selects the
end-marker: the run is `[2, 3]`. -/
theorem C1_decode_loop_invariants_witness :
    [BOS_ID] <+: run (fun (_ : Unit) (_ : List Int) => ((3 : Int), ())) 5 ()
    ∧ (decodeStep (fun (_ : Unit) (_ : List Int) => ((3 : Int), ())) () [BOS_ID]).length
        = [BOS_ID].length + 1
    ∧ [BOS_ID] <+: decodeStep (fun (_ : Unit) (_ : List Int) => ((3 : Int), ())) () [BOS_ID]
    ∧ (run (fun (_ : Unit) (_ : List Int) => ((3 : Int), ())) 5 ()).length ≤ 5 + 1
    ∧ (EOS_ID ∈ (run (fun (_ : Unit) (_ : List Int) => ((3 : Int), ())) 5 ()).drop 1 →
        (run (fun (_ : Unit) (_ : List Int) => ((3 : Int), ())) 5 ()).getLast?
          = some EOS_ID) :=
  C1_decode_loop_invariants (fun (_ : Unit) (_ : List Int) => ((3 : Int), ())) 5 () () [BOS_ID]

/-- C4: if the inference call never selects the end-token ID, the decode
loop still terminates after exactly `N` steps and returns the built
sequence of length `N + 1` (a value, not an error). -/
theorem C4_truncation {σ : Type} (chooseNext : σ → List Int → Int × σ)
    (N : Nat) (s0 : σ) (h : ∀ s tokens, (chooseNext s tokens).1 ≠ EOS_ID) :
    (run chooseNext N s0).length = N + 1 := by
  have := decodeLoop_length_no_eos chooseNext h N s0 [BOS_ID]
  simpa [run, Nat.add_comm] using this

/-- Witness for C4 at a chooser that always selects token 5 and at the
configured maximum `MAX_LEN = 32` of the scripts. -/
theorem C4_truncation_witness :
    (run (fun (_ : Unit) (_ : List Int) => ((5 : Int), ())) MAX_LEN ()).length
      = MAX_LEN + 1 :=
  C4_truncation (fun (_ : Unit) (_ : List Int) => ((5 : Int), ())) MAX_LEN ()
    (by intro s tokens; show (5 : Int) ≠ EOS_ID; decide)

/-! ## Lemmas and claims about decode_tokens -/

theorem decodePiece_special {vocab : List String} {t : Int}
    (h : t ∈ special_ids) : decodePiece vocab t = none := by
  simp [decodePiece, h]

theorem decodePiece_in_range {vocab : List String} {t : Int}
    (h1 : t ∉ special_ids) (h2 : 0 ≤ t ∧ t < (vocab.length : Int)) :
    decodePiece vocab t = some (vocab.getD t.toNat "") := by
  simp [decodePiece, h1, h2]

theorem decodePiece_out_of_range {vocab : List String} {t : Int}
    (h1 : t ∉ special_ids) (h2 : ¬(0 ≤ t ∧ t < (vocab.length : Int))) :
    decodePiece vocab t = some ("<UNK" ++ toString t ++ ">") := by
  simp only [decodePiece, if_neg h1, if_neg h2]

/-- C3: decoding is total (a plain function to `String` in the
embedding) and the special IDs 0, 1, 2, 3 never contribute characters to
the output: filtering them out of the token list leaves the decoded
string unchanged. -/
theorem C3_special_ids_silent (T : List Int) (V : List String) :
    decode_tokens T V
      = decode_tokens (T.filter (fun t => decide (t ∉ special_ids))) V := by
  induction T with
  | nil => rfl
  | cons t ts ih =>
    by_cases h : t ∈ special_ids
    · rw [List.filter_cons_of_neg (by simp [h])]
      simp only [decode_tokens] at ih ⊢
      rw [List.filterMap_cons_none (decodePiece_special h)]
      exact ih
    · rw [List.filter_cons_of_pos (by simp [h])]
      simp only [decode_tokens] at ih ⊢
      rcases ho : decodePiece V t with _ | s
      · rw [List.filterMap_cons_none ho, List.filterMap_cons_none ho]
        exact ih
      · rw [List.filterMap_cons_some ho, List.filterMap_cons_some ho]
        simp only [joinAll]
        rw [ih]

/-- C6: decoding a token list built only from in-range, non-special IDs
reproduces the concatenation, in order and with no separator, of the
corresponding vocabulary entries. -/
theorem C6_roundtrip (T : List Int) (V : List String)
    (h : ∀ t ∈ T, (0 ≤ t ∧ t < (V.length : Int)) ∧ t ∉ special_ids) :
    decode_tokens T V = joinAll (T.map (fun t => V.getD t.toNat "")) := by
  induction T with
  | nil => rfl
  | cons t ts ih =>
    obtain ⟨hr, hs⟩ := h t (List.mem_cons_self t ts)
    have hts := ih (fun x hx => h x (List.mem_cons_of_mem _ hx))
    have hp : decodePiece V t = some (V.getD t.toNat "") :=
      decodePiece_in_range hs hr
    simp only [decode_tokens] at hts ⊢
    rw [List.filterMap_cons_some hp, List.map_cons]
    simp only [joinAll]
    rw [hts]

/-- Witness for C6: decoding `[4, 5]` against a six-entry vocabulary
concatenates the fifth and sixth entries. -/
theorem C6_roundtrip_witness :
    decode_tokens [4, 5] ["a", "b", "c", "d", "e", "f"]
      = joinAll (([4, 5] : List Int).map
          (fun t => ["a", "b", "c", "d", "e", "f"].getD t.toNat "")) :=
  C6_roundtrip [4, 5] ["a", "b", "c", "d", "e", "f"] (by decide)

/-- C7: a non-special token ID at or beyond the vocabulary length decodes
to the visible placeholder `<UNK{t}>`, which contains the literal numeric
ID, rather than raising or being dropped. -/
theorem C7_out_of_range_placeholder (t : Int) (V : List String)
    (h1 : t ∉ special_ids) (h2 : (V.length : Int) ≤ t) :
    decode_tokens [t] V = "<UNK" ++ toString t ++ ">"
    ∧ ∃ pre post, decode_tokens [t] V = pre ++ toString t ++ post := by
  have hr : ¬(0 ≤ t ∧ t < (V.length : Int)) := by omega
  have hp := @decodePiece_out_of_range V t h1 hr
  have hdec : decode_tokens [t] V = "<UNK" ++ toString t ++ ">" := by
    simp only [decode_tokens]
    rw [List.filterMap_cons_some hp, List.filterMap_nil]
    simp only [joinAll]
    exact String.append_empty _
  exact ⟨hdec, "<UNK", ">", hdec⟩

/-- Witness for C7 at token ID 10 against a one-entry vocabulary. -/
theorem C7_out_of_range_placeholder_witness :
    decode_tokens [10] ["A"] = "<UNK" ++ toString (10 : Int) ++ ">"
    ∧ ∃ pre post, decode_tokens [10] ["A"] = pre ++ toString (10 : Int) ++ post :=
  C7_out_of_range_placeholder 10 ["A"] (by decide) (by decide)

/-- C9: a negative token ID is not special and fails the `0 <= t` half of
the range test, so it decodes to the out-of-range placeholder for every
vocabulary — the vocabulary is never indexed from the end. -/
theorem C9_negative_placeholder (t : Int) (V : List String) (h : t < 0) :
    decode_tokens [t] V = "<UNK" ++ toString t ++ ">" := by
  have h1 : t ∉ special_ids := by
    simp only [special_ids, List.mem_cons, List.not_mem_nil, or_false]
    omega
  have hr : ¬(0 ≤ t ∧ t < (V.length : Int)) := by omega
  have hp := @decodePiece_out_of_range V t h1 hr
  simp only [decode_tokens]
  rw [List.filterMap_cons_some hp, List.filterMap_nil]
  simp only [joinAll]
  exact String.append_empty _

/-- Witness for C9 at token ID -5 against a two-entry vocabulary. -/
theorem C9_negative_placeholder_witness :
    decode_tokens [-5] ["A", "B"] = "<UNK" ++ toString (-5 : Int) ++ ">" :=
  C9_negative_placeholder (-5) ["A", "B"] (by decide)

/-- C2 fails on the code: `decode_tokens` applies no offset, so IDs 4, 5
and 6 are out of range for the three-entry vocabulary and do not decode
to "ABC". -/
theorem C2_counterexample :
    decode_tokens [2, 4, 5, 6, 3] ["A", "B", "C"] ≠ "ABC" := by decide

/-- C2 amended: under the scripts' actual (offset-free) convention, IDs
index the vocabulary directly, so decoding `[2, 4, 5, 6, 3]` with
vocabulary `["A", "B", "C"]` skips the special IDs 2 and 3 and renders
the out-of-range IDs 4, 5, 6 as placeholders. -/
theorem C2_amended_no_offset :
    decode_tokens [2, 4, 5, 6, 3] ["A", "B", "C"] = "<UNK4><UNK5><UNK6>" := by
  decide

/-! ## Lemmas and claims about the arg-max selection -/

theorem np_argmaxFrom_spec {α : Type} [LinearOrder α] :
    ∀ (xs : List α) (bv : α) (best i : Nat),
      (np_argmaxFrom xs bv best i = best
        ∧ ∀ j (hj : j < xs.length), xs.get ⟨j, hj⟩ ≤ bv)
      ∨ (∃ k, ∃ hk : k < xs.length,
          np_argmaxFrom xs bv best i = i + k
          ∧ bv < xs.get ⟨k, hk⟩
          ∧ (∀ j (hj : j < xs.length), xs.get ⟨j, hj⟩ ≤ xs.get ⟨k, hk⟩)
          ∧ (∀ j (hj : j < xs.length), j < k → xs.get ⟨j, hj⟩ < xs.get ⟨k, hk⟩)) := by
  intro xs
  induction xs with
  | nil =>
    intro bv best i
    left
    exact ⟨rfl, fun j hj => absurd hj (by simp)⟩
  | cons x xs ih =>
    intro bv best i
    simp only [np_argmaxFrom]
    by_cases hc : bv < x
    · rw [if_pos hc]
      rcases ih x i (i + 1) with ⟨heq, hmax⟩ | ⟨k, hk, heq, hgt, hmax, hstrict⟩
      · right
        refine ⟨0, Nat.succ_pos _, ?_, ?_, ?_, ?_⟩
        · rw [heq]; omega
        · simpa using hc
        · intro j hj
          cases j with
          | zero => simp
          | succ j =>
            simp only [List.get_cons_succ, List.get_cons_zero]
            exact hmax j (Nat.lt_of_succ_lt_succ hj)
        · intro j hj hj0
          exact absurd hj0 (Nat.not_lt_zero j)
      · right
        refine ⟨k + 1, Nat.succ_lt_succ hk, ?_, ?_, ?_, ?_⟩
        · rw [heq]; omega
        · simp only [List.get_cons_succ]
          exact lt_trans hc hgt
        · intro j hj
          cases j with
          | zero =>
            simp only [List.get_cons_succ, List.get_cons_zero]
            exact le_of_lt hgt
          | succ j =>
            simp only [List.get_cons_succ]
            exact hmax j (Nat.lt_of_succ_lt_succ hj)
        · intro j hj hjk
          cases j with
          | zero =>
            simp only [List.get_cons_succ, List.get_cons_zero]
            exact hgt
          | succ j =>
            simp only [List.get_cons_succ]
            exact hstrict j (Nat.lt_of_succ_lt_succ hj) (Nat.lt_of_succ_lt_succ hjk)
    · rw [if_neg hc]
      push_neg at hc
      rcases ih bv best (i + 1) with ⟨heq, hmax⟩ | ⟨k, hk, heq, hgt, hmax, hstrict⟩
      · left
        refine ⟨heq, ?_⟩
        intro j hj
        cases j with
        | zero => simpa using hc
        | succ j =>
          simp only [List.get_cons_succ]
          exact hmax j (Nat.lt_of_succ_lt_succ hj)
      · right
        refine ⟨k + 1, Nat.succ_lt_succ hk, ?_, ?_, ?_, ?_⟩
        · rw [heq]; omega
        · simp only [List.get_cons_succ]
          exact hgt
        · intro j hj
          cases j with
          | zero =>
            simp only [List.get_cons_succ, List.get_cons_zero]
            exact le_trans hc (le_of_lt hgt)
          | succ j =>
            simp only [List.get_cons_succ]
            exact hmax j (Nat.lt_of_succ_lt_succ hj)
        · intro j hj hjk
          cases j with
          | zero =>
            simp only [List.get_cons_succ, List.get_cons_zero]
            exact lt_of_le_of_lt hc hgt
          | succ j =>
            simp only [List.get_cons_succ]
            exact hstrict j (Nat.lt_of_succ_lt_succ hj) (Nat.lt_of_succ_lt_succ hjk)

theorem np_argmax_spec {α : Type} [LinearOrder α] (l : List α) (h : l ≠ []) :
    ∃ (m : Nat) (hm : m < l.length),
      np_argmax l = m
      ∧ (∀ j (hj : j < l.length), l.get ⟨j, hj⟩ ≤ l.get ⟨m, hm⟩)
      ∧ (∀ j (hj : j < l.length), j < m → l.get ⟨j, hj⟩ < l.get ⟨m, hm⟩) := by
  cases l with
  | nil => exact absurd rfl h
  | cons x xs =>
    rcases np_argmaxFrom_spec xs x 0 1 with ⟨heq, hmax⟩ | ⟨k, hk, heq, hgt, hmax, hstrict⟩
    · refine ⟨0, Nat.succ_pos _, ?_, ?_, ?_⟩
      · simp only [np_argmax]; exact heq
      · intro j hj
        cases j with
        | zero => simp
        | succ j =>
          simp only [List.get_cons_succ, List.get_cons_zero]
          exact hmax j (Nat.lt_of_succ_lt_succ hj)
      · intro j hj hj0
        exact absurd hj0 (Nat.not_lt_zero j)
    · refine ⟨k + 1, Nat.succ_lt_succ hk, ?_, ?_, ?_⟩
      · simp only [np_argmax]; rw [heq]; omega
      · intro j hj
        cases j with
        | zero =>
          simp only [List.get_cons_succ, List.get_cons_zero]
          exact le_of_lt hgt
        | succ j =>
          simp only [List.get_cons_succ]
          exact hmax j (Nat.lt_of_succ_lt_succ hj)
      · intro j hj hjk
        cases j with
        | zero =>
          simp only [List.get_cons_succ, List.get_cons_zero]
          exact hgt
        | succ j =>
          simp only [List.get_cons_succ]
          exact hstrict j (Nat.lt_of_succ_lt_succ hj) (Nat.lt_of_succ_lt_succ hjk)

/-- C5: the token selected from the last logits row is an in-range index
whose score is the maximum of the row, and every index before it has a
strictly smaller score — ties are broken to the lowest token ID (the
first-encountered maximum). -/
theorem C5_argmax_selection (logits : List (List ℚ)) (row : List ℚ)
    (hrow : logits.getLast? = some row) (hne : row ≠ []) :
    ∃ (m : Nat) (hm : m < row.length),
      selectNext logits = m
      ∧ (∀ j (hj : j < row.length), row.get ⟨j, hj⟩ ≤ row.get ⟨m, hm⟩)
      ∧ (∀ j (hj : j < row.length), j < m → row.get ⟨j, hj⟩ < row.get ⟨m, hm⟩) := by
  have hlast : logits.getLastD [] = row := by
    rw [List.getLastD_eq_getLast?, hrow]
    rfl
  have hsel : selectNext logits = np_argmax row := by
    simp only [selectNext, hlast]
  obtain ⟨m, hm, hmeq, hmax, hstrict⟩ := np_argmax_spec row hne
  exact ⟨m, hm, by rw [hsel, hmeq], hmax, hstrict⟩

/-- Witness for C5 on the row `[1, 3, 3, 2]`: index 1, the first of the
two tied maxima, is selected. -/
theorem C5_argmax_selection_witness :
    ∃ (m : Nat) (hm : m < ([(1 : ℚ), 3, 3, 2]).length),
      selectNext [[(1 : ℚ), 3, 3, 2]] = m
      ∧ (∀ j (hj : j < ([(1 : ℚ), 3, 3, 2]).length),
          ([(1 : ℚ), 3, 3, 2]).get ⟨j, hj⟩ ≤ ([(1 : ℚ), 3, 3, 2]).get ⟨m, hm⟩)
      ∧ (∀ j (hj : j < ([(1 : ℚ), 3, 3, 2]).length), j < m →
          ([(1 : ℚ), 3, 3, 2]).get ⟨j, hj⟩ < ([(1 : ℚ), 3, 3, 2]).get ⟨m, hm⟩) :=
  C5_argmax_selection [[(1 : ℚ), 3, 3, 2]] [(1 : ℚ), 3, 3, 2] rfl (by decide)

theorem np_argmaxFrom_map {α β : Type} [LinearOrder α] [LinearOrder β]
    (f : α → β) (hf : StrictMono f) :
    ∀ (xs : List α) (bv : α) (best i : Nat),
      np_argmaxFrom (xs.map f) (f bv) best i = np_argmaxFrom xs bv best i := by
  intro xs
  induction xs with
  | nil => intro bv best i; rfl
  | cons x xs ih =>
    intro bv best i
    simp only [List.map_cons, np_argmaxFrom]
    by_cases hc : bv < x
    · rw [if_pos (hf hc), if_pos hc, ih]
    · rw [if_neg (fun hlt => hc (hf.lt_iff_lt.mp hlt)), if_neg hc, ih]

theorem np_argmax_map {α β : Type} [LinearOrder α] [LinearOrder β]
    (f : α → β) (hf : StrictMono f) (xs : List α) :
    np_argmax (xs.map f) = np_argmax xs := by
  cases xs with
  | nil => rfl
  | cons x xs =>
    simp only [List.map_cons, np_argmax]
    exact np_argmaxFrom_map f hf xs x 0 1

theorem softmax_eq_map (xs : List ℝ) :
    softmax xs = xs.map (fun x => Real.exp (x - listMax xs)
      / (xs.map (fun y => Real.exp (y - listMax xs))).sum) := by
  simp only [softmax, List.map_map]
  rfl

/-- C10: on the same last-row logits vector, the token selected by
`tokenid_debug4.py` (arg-max of the softmax-normalised probabilities)
equals the token selected by `tokenid_debug3.py` (arg-max of the raw
logits), because the normalisation is a strictly increasing transform of
each entry. -/
theorem C10_softmax_argmax_equiv (xs : List ℝ) (h : xs ≠ []) :
    np_argmax (softmax xs) = np_argmax xs := by
  have hSpos : 0 < (xs.map (fun y => Real.exp (y - listMax xs))).sum := by
    apply List.sum_pos
    · intro a ha
      obtain ⟨y, hy, rfl⟩ := List.mem_map.mp ha
      exact Real.exp_pos _
    · simp only [ne_eq, List.map_eq_nil_iff]
      exact h
  rw [softmax_eq_map]
  apply np_argmax_map
  intro a b hab
  exact (div_lt_div_iff_of_pos_right hSpos).mpr (Real.exp_lt_exp.mpr (by linarith))

/-- Witness for C10 on the logits row `[0, 1]`. -/
theorem C10_softmax_argmax_equiv_witness :
    np_argmax (softmax [(0 : ℝ), 1]) = np_argmax [(0 : ℝ), 1] :=
  C10_softmax_argmax_equiv [(0 : ℝ), 1] (by simp)

/-! ## Claim about missing input files -/

/-- C8: for every invocation of a decode script in which a required input
file (image, model, or vocabulary, as resolved from `argv`) does not
exist, the script ends with a printed message and a non-zero exit status
— an explicit `sys.exit(1)` in `tokenid_debug4.py`, an uncaught
`FileNotFoundError`-style exception in `tokenid_debug3.py` — and the
decode loop is never run. -/
theorem C8_missing_file_exits {σ : Type} (fileExists : String → Bool)
    (vocabContent : List String) (chooseNext : σ → List Int → Int × σ)
    (s0 : σ) (argv4 argv3 : List String)
    (hmiss4 : ∃ p ∈ debug4_required_paths argv4, fileExists p = false)
    (hmiss3 : ∃ p ∈ debug3_required_paths argv3, fileExists p = false) :
    ((tokenid_debug4_main fileExists vocabContent chooseNext s0 argv4).exitCode ≠ 0
      ∧ (tokenid_debug4_main fileExists vocabContent chooseNext s0 argv4).ranDecodeLoop
          = false)
    ∧ ((tokenid_debug3_main fileExists vocabContent chooseNext s0 argv3).exitCode ≠ 0
      ∧ (tokenid_debug3_main fileExists vocabContent chooseNext s0 argv3).ranDecodeLoop
          = false) := by
  constructor
  · by_cases ha : argv4.length < 2
    · simp [tokenid_debug4_main, ha, ScriptOutcome.exitCode, ScriptOutcome.ranDecodeLoop]
    · by_cases hm : fileExists (debug4_model_path argv4) = false
      · simp [tokenid_debug4_main, ha, hm, ScriptOutcome.exitCode,
          ScriptOutcome.ranDecodeLoop]
      · by_cases hv : fileExists (debug4_vocab_path argv4) = false
        · simp [tokenid_debug4_main, ha, hm, hv, ScriptOutcome.exitCode,
            ScriptOutcome.ranDecodeLoop]
        · by_cases hi : fileExists (argv4[1]?.getD "") = false
          · simp [tokenid_debug4_main, ha, hm, hv, hi, ScriptOutcome.exitCode,
              ScriptOutcome.ranDecodeLoop]
          · exfalso
            simp only [debug4_required_paths, List.getD_eq_getElem?_getD,
              List.mem_cons, List.not_mem_nil, or_false] at hmiss4
            obtain ⟨p, hp, hfp⟩ := hmiss4
            rcases hp with rfl | rfl | rfl
            · exact hi hfp
            · exact hm hfp
            · exact hv hfp
  · by_cases ha : argv3.length < 3
    · simp [tokenid_debug3_main, ha, ScriptOutcome.exitCode, ScriptOutcome.ranDecodeLoop]
    · by_cases hv : fileExists (debug3_vocab_path argv3) = false
      · simp [tokenid_debug3_main, ha, hv, ScriptOutcome.exitCode,
          ScriptOutcome.ranDecodeLoop]
      · by_cases hm : fileExists (argv3[2]?.getD "") = false
        · simp [tokenid_debug3_main, ha, hv, hm, ScriptOutcome.exitCode,
            ScriptOutcome.ranDecodeLoop]
        · by_cases hi : fileExists (argv3[1]?.getD "") = false
          · simp [tokenid_debug3_main, ha, hv, hm, hi, ScriptOutcome.exitCode,
              ScriptOutcome.ranDecodeLoop]
          · exfalso
            simp only [debug3_required_paths, List.getD_eq_getElem?_getD,
              List.mem_cons, List.not_mem_nil, or_false] at hmiss3
            obtain ⟨p, hp, hfp⟩ := hmiss3
            rcases hp with rfl | rfl | rfl
            · exact hi hfp
            · exact hm hfp
            · exact hv hfp

/-- Witness for C8 on a file system in which no file exists, with the
invocations `tokenid_debug4.py img.png` and
`tokenid_debug3.py img.png model.mlpackage`. -/
theorem C8_missing_file_exits_witness :
    ((tokenid_debug4_main (fun _ => false) [] (fun (_ : Unit) (_ : List Int) => ((0 : Int), ())) ()
        ["tokenid_debug4.py", "img.png"]).exitCode ≠ 0
      ∧ (tokenid_debug4_main (fun _ => false) [] (fun (_ : Unit) (_ : List Int) => ((0 : Int), ())) ()
        ["tokenid_debug4.py", "img.png"]).ranDecodeLoop = false)
    ∧ ((tokenid_debug3_main (fun _ => false) [] (fun (_ : Unit) (_ : List Int) => ((0 : Int), ())) ()
        ["tokenid_debug3.py", "img.png", "model.mlpackage"]).exitCode ≠ 0
      ∧ (tokenid_debug3_main (fun _ => false) [] (fun (_ : Unit) (_ : List Int) => ((0 : Int), ())) ()
        ["tokenid_debug3.py", "img.png", "model.mlpackage"]).ranDecodeLoop = false) :=
  C8_missing_file_exits (fun _ => false) [] (fun (_ : Unit) (_ : List Int) => ((0 : Int), ())) ()
    ["tokenid_debug4.py", "img.png"] ["tokenid_debug3.py", "img.png", "model.mlpackage"]
    (by decide) (by decide)
